import Mathlib

/-!
Verification development for the reward pipeline in `src/open_r1/code_rewards.py`.

The Python module is shallowly embedded below:
pure functions become Lean functions over `List Char` / `String`,
Python exceptions become `Except` values, the external e2b sandbox is
modelled as an explicit environment (`Env`), and the inner evaluation
script's `subprocess.run` is modelled as an explicit executor (`ExecEnv`).
Floats are modelled as rationals; every weight occurring in the source is
exactly representable.
-/

set_option autoImplicit false

namespace CodeRewards

/-- Characters removed by Python's `str.strip()` (ASCII whitespace). -/
def isPySpace (c : Char) : Bool :=
  c = ' ' || c = '\t' || c = '\n' || c = '\r' || c = '\x0b' || c = '\x0c'

/-- Embedding of Python `str.strip()` on `List Char`. -/
def pyStrip (cs : List Char) : List Char :=
  ((cs.dropWhile isPySpace).reverse.dropWhile isPySpace).reverse

/-- Embedding of Python `str.strip()` on `String`. -/
def pyStripS (s : String) : String :=
  String.mk (pyStrip s.data)

/-- Embedding of Python `s.split('\n')`: split at every newline; the empty
string yields one empty field, like Python. -/
def splitNl : List Char → List (List Char)
  | [] => [[]]
  | c :: rest =>
    if c = '\n' then [] :: splitNl rest
    else
      match splitNl rest with
      | [] => [[c]]
      | l :: ls => (c :: l) :: ls

/-- Split a character list at the first occurrence of the pattern `pat`:
returns the part before the occurrence and the part after it, or `none`
when `pat` does not occur.  This is the "leftmost, then continue after"
primitive used to model both the lazy regex scan of `extract_code` and
the decimal-point split of float parsing. -/
def splitAtFirst (pat : List Char) : List Char → Option (List Char × List Char)
  | [] => none
  | c :: rest =>
    if pat.isPrefixOf (c :: rest) then some ([], (c :: rest).drop pat.length)
    else
      match splitAtFirst pat rest with
      | some (pre, post) => some (c :: pre, post)
      | none => none

/-- The three-backtick fence delimiter of the regex in `extract_code`. -/
def fence : List Char := "```".data

/-- The opening tag of a fenced code block for a given language, i.e. the
literal part of the regex pattern before the lazy capture group. -/
def openTagL (lang : List Char) : List Char := fence ++ lang ++ "\n".data

/-- Fuel-indexed scanner implementing `re.findall` for the pattern used in
`extract_code` (opening tag, lazy capture up to the earliest closing
fence, continue scanning after the match, non-overlapping).  Fuel is
consumed one unit per scanned position, so fuel equal to the input
length always suffices. -/
def findBlocksF (op : List Char) : Nat → List Char → List (List Char)
  | 0, _ => []
  | _ + 1, [] => []
  | fuel + 1, c :: rest =>
    if op.isPrefixOf (c :: rest) then
      match splitAtFirst fence ((c :: rest).drop op.length) with
      | some (content, after) => content :: findBlocksF op fuel after
      | none => findBlocksF op fuel rest
    else findBlocksF op fuel rest

/-- All matches of the `extract_code` regex in a character list. -/
def findBlocks (op : List Char) (s : List Char) : List (List Char) :=
  findBlocksF op s.length s

/-- Whether the pattern occurs in the character list at all. -/
def occursIn (pat s : List Char) : Bool :=
  (splitAtFirst pat s).isSome

/-- Embedding of `extract_code` on character lists: the capture of the last
match of the pattern, or the empty list when there is no match. -/
def extractCodeL (lang : List Char) (cs : List Char) : List Char :=
  match (findBlocks (openTagL lang) cs).getLast? with
  | some m => m
  | none => []

/-- Embedding of `extract_code(completion, language="python")` from the
source: find all fenced code blocks tagged with the language and return
the last one, or the empty string when there is none. -/
def extract_code (completion : String) (language : String := "python") : String :=
  String.mk (extractCodeL language.data completion.data)

/-- Numeric value of a list of decimal digit characters, most significant
first; the empty list counts as 0 (the omitted side of a decimal point). -/
def natOfDigits (cs : List Char) : Nat :=
  cs.foldl (fun a c => a * 10 + (c.toNat - 48)) 0

/-- Whether every character of the list is a decimal digit. -/
def allDigits (cs : List Char) : Bool :=
  cs.all (fun c => c.isDigit)

/-- Unsigned part of the float grammar: integer digits, optionally followed
by a decimal point and fractional digits, at least one digit in total. -/
def parseUnsigned? (cs : List Char) : Option ℚ :=
  match splitAtFirst ".".data cs with
  | none =>
    if !cs.isEmpty && allDigits cs then some (natOfDigits cs : ℚ) else none
  | some (ip, fp) =>
    if (!ip.isEmpty || !fp.isEmpty) && allDigits ip && allDigits fp then
      some ((natOfDigits ip : ℚ) + mkRat (natOfDigits fp) (10 ^ fp.length))
    else none

/-- Model of Python's builtin `float(text)` restricted to plain signed
decimal literals, which are exactly the result shapes the evaluation
payload can display; any other text is rejected with `none`, standing for
the `ValueError` branch of `run_script`. -/
def parseFloat? (s : String) : Option ℚ :=
  match s.data with
  | '-' :: rest => (parseUnsigned? rest).map (fun q => -q)
  | '+' :: rest => parseUnsigned? rest
  | cs => parseUnsigned? cs

/-- Model of `float(execution.text)` under the try/except of `run_script`:
a missing result text (Python `None`) raises `TypeError`, unparseable text
raises `ValueError`, and both are coerced to the reward 0.0. -/
def parseFloatD (t : Option String) : ℚ :=
  match t with
  | none => 0
  | some s => (parseFloat? s).getD 0

/-- A chat message, one turn of a completion. -/
structure Message where
  role : String
  content : String
  deriving DecidableEq

/-- A completion is the ordered list of its turns; the facade reads only
the content of the last one. -/
abbrev Completion := List Message

/-- One test case of a verification record.  A missing `label` key is
`none`; a blank label is `some ""`. -/
structure TestCase where
  input : String
  output : String
  label : Option String
  deriving DecidableEq

/-- Per-completion verification record: the target language and the test
cases. -/
structure VerificationInfo where
  language : String
  test_cases : List TestCase
  deriving DecidableEq

/-- A rendered evaluation script of `evaluation_script_template`,
identified with the data embedded in it.  The template embeds the snippet
and the test-case list through `json.dumps`, which is injective, so the
rendered text and this record determine each other; the dispatcher treats
the script as opaque either way. -/
structure ScriptPayload where
  code : String
  test_cases : List TestCase
  deriving DecidableEq

/-- External behavior of `subprocess.run(["python3", "-c", code], input=..)`
inside the evaluation script: maps the snippet and its standard input to
the exit code and the captured standard output.  The fixed 10-second
timeout is real time and is absorbed into this abstraction. -/
structure ExecEnv where
  exec : String → String → Int × String

/-- The fixed label-to-weight dictionary of the evaluation script, with the
0.0 default of `dict.get` for unknown labels. -/
def weights (label : String) : ℚ :=
  if label = "basic" then mkRat 1 4
  else if label = "medium" then mkRat 1 4
  else if label = "high" then mkRat 1 4
  else if label = "edge" then mkRat 1 4
  else 0

/-- One iteration of the `for case in test_cases` loop of `evaluate_code`;
the accumulator carries `(passed_weight, total_weight)`. -/
def evalStep (ee : ExecEnv) (code : String) (acc : ℚ × ℚ) (c : TestCase) : ℚ × ℚ :=
  let label := c.label.getD "minimal"
  let weight := weights (pyStripS label)
  let total_weight := acc.2 + weight
  let res := ee.exec code c.input
  if res.1 ≠ 0 then (acc.1, total_weight)
  else
    let output := pyStrip res.2.data
    let all_correct :=
      ((splitNl output).zip (splitNl c.output.data)).foldl
        (fun b p => b && (pyStrip p.1 == pyStrip p.2)) true
    if all_correct then (acc.1 + weight, total_weight) else (acc.1, total_weight)

/-- Embedding of the inner `evaluate_code` of `evaluation_script_template`:
the returned value is the accumulated `passed_weight`; the normalization
by `total_weight` is commented out in the source, so the second
accumulator component is dead. -/
def evaluate_code (ee : ExecEnv) (code : String) (test_cases : List TestCase) : ℚ :=
  (test_cases.foldl (evalStep ee code) (0, 0)).1

/-- Result of one `sbx.run_code(script, language=..)` call: either an
execution object whose `text` field holds the displayed result (or Python
`None`), or an exception raised by the call itself. -/
inductive RunRes where
  | ok (text : Option String)
  | exn
  deriving DecidableEq

/-- The external e2b sandbox provider for one dispatch: whether
`AsyncSandbox.create` raises, and how `run_code` behaves on each script. -/
structure Env where
  createFails : Bool
  run : ScriptPayload → String → RunRes

/-- Observable sandbox operations of one dispatch, in order. -/
inductive Ev where
  | create
  | run (p : ScriptPayload)
  | kill
  deriving DecidableEq

/-- Embedding of `run_script`: the `await sbx.run_code(..)` sits outside
the try block, so an exception from the call itself propagates, while the
try/except only guards the float conversion of the result text. -/
def run_script (env : Env) (p : ScriptPayload) (language : String) : Except Unit ℚ :=
  match env.run p language with
  | RunRes.ok t => Except.ok (parseFloatD t)
  | RunRes.exn => Except.error ()

/-- Effectful map in the Except monad, written out first-order so that its
equations are easy to reason about; it models both a list comprehension
that may raise on an element and the result collection of
`asyncio.gather`. -/
def mapE {α β ε : Type} (f : α → Except ε β) : List α → Except ε (List β)
  | [] => Except.ok []
  | a :: as =>
    match f a with
    | Except.error e => Except.error e
    | Except.ok b =>
      match mapE f as with
      | Except.error e => Except.error e
      | Except.ok bs => Except.ok (b :: bs)

/-- The value of `asyncio.gather(*tasks)`: the ordered results when every
task finishes, or the exception when some task raises. -/
def gatherResults (env : Env) (scripts : List ScriptPayload) (language : String) :
    Except Unit (List ℚ) :=
  mapE (fun p => run_script env p language) scripts

/-- Embedding of `run_async`, paired with the trace of sandbox operations.
Creation either raises (before any sandbox event) or yields the shared
sandbox; `gather` launches every script task concurrently, so each script
causes a `run` request even when a sibling task raises; and `sbx.kill()`
runs only after a fully successful gather, as the source has no
try/finally around it. -/
def run_async (env : Env) (scripts : List ScriptPayload) (language : String) :
    Except Unit (List ℚ) × List Ev :=
  if env.createFails then (Except.error (), [])
  else
    match gatherResults env scripts language with
    | Except.ok rewards => (Except.ok rewards, Ev.create :: (scripts.map Ev.run ++ [Ev.kill]))
    | Except.error e => (Except.error e, Ev.create :: scripts.map Ev.run)

/-- Embedding of `run_async_from_sync`: its except clause only logs and
re-raises, so it is observationally the dispatch itself. -/
def run_async_from_sync (env : Env) (scripts : List ScriptPayload) (language : String) :
    Except Unit (List ℚ) × List Ev :=
  run_async env scripts language

/-- Python exception values the facade can raise: the ImportError of the
capability check, an IndexError from subscripting an empty list, or the
ValueError of the language validation, which carries the full
verification-info list. -/
inductive PyErr where
  | importError
  | indexError
  | valueError (info : List VerificationInfo)
  deriving DecidableEq

/-- Snippet extraction for one completion, from the list comprehension
`extract_code(completion[-1]["content"])`: reading the last turn of an
empty completion raises IndexError, and the language argument is left at
its default value "python". -/
def snippetOf (c : Completion) : Except PyErr String :=
  match c.getLast? with
  | none => Except.error PyErr.indexError
  | some m => Except.ok (extract_code m.content "python")

/-- Total description of the last turn's content, used to state what the
facade computes on well-formed (nonempty) completions. -/
def lastContentD (c : Completion) : String :=
  match c.getLast? with
  | none => ""
  | some m => m.content

/-- The script payloads the facade builds: one rendered evaluation script
per (snippet, verification-record) pair, `zip` truncating to the shorter
of the two lists. -/
def facadeScripts (completions : List Completion)
    (verification_info : List VerificationInfo) : List ScriptPayload :=
  ((completions.map (fun c => extract_code (lastContentD c) "python")).zip
      verification_info).map
    (fun p => ScriptPayload.mk p.1 p.2.test_cases)

/-- Embedding of `code_based_on_unittests_reward` together with the trace
of sandbox operations it causes.  The argument `is_e2b` is the value of
`is_e2b_available()`; the first component is the Python return value or
the raised exception. -/
def code_based_on_unittests_reward (env : Env) (is_e2b : Bool)
    (completions : List Completion) (verification_info : List VerificationInfo) :
    Except PyErr (List ℚ) × List Ev :=
  if is_e2b = false then (Except.error PyErr.importError, [])
  else
    match mapE snippetOf completions with
    | Except.error e => (Except.error e, [])
    | Except.ok code_snippets =>
      let scripts := (code_snippets.zip verification_info).map
        (fun p => ScriptPayload.mk p.1 p.2.test_cases)
      match verification_info.head? with
      | none => (Except.error PyErr.indexError, [])
      | some v0 =>
        if verification_info.all (fun v => v.language == v0.language) then
          match run_async_from_sync env scripts v0.language with
          | (Except.ok rewards, tr) => (Except.ok rewards, tr)
          | (Except.error _, tr) =>
            (Except.ok (List.replicate completions.length 0), tr)
        else (Except.error (PyErr.valueError verification_info), [])

/-- Embedding of `label_schedule`. -/
def label_schedule (epoch : Int) : List String :=
  if epoch < 1 then ["basic"]
  else if epoch < 2 then ["basic", "medium"]
  else if epoch < 3 then ["basic", "medium", "high"]
  else ["basic", "medium", "high", "edge"]

/-- Python's `x or y` for an optional string `x`: `None` and the empty
string are falsy and fall through to the default. -/
def pyOr (o : Option String) (d : String) : String :=
  match o with
  | none => d
  | some s => if s = "" then d else s

/-- The in-place filtering of every record's `test_cases` that
`curriculum_aware_reward_fn` performs before scoring. -/
def curriculum_filter (epoch : Int) (verification_info : List VerificationInfo) :
    List VerificationInfo :=
  verification_info.map
    (fun info =>
      { info with
        test_cases := info.test_cases.filter
          (fun c => (label_schedule epoch).contains (pyOr c.label "minimal")) })

/-- Embedding of `curriculum_aware_reward_fn`: filter every record's test
cases by the epoch's allowed labels, then delegate to the plain facade. -/
def curriculum_aware_reward_fn (env : Env) (is_e2b : Bool)
    (completions : List Completion) (verification_info : List VerificationInfo)
    (epoch : Int) : Except PyErr (List ℚ) × List Ev :=
  code_based_on_unittests_reward env is_e2b completions
    (curriculum_filter epoch verification_info)

/-- Decimal digit character for a value below ten. -/
def digitChar (n : Nat) : Char :=
  if n = 0 then '0' else if n = 1 then '1' else if n = 2 then '2'
  else if n = 3 then '3' else if n = 4 then '4' else if n = 5 then '5'
  else if n = 6 then '6' else if n = 7 then '7' else if n = 8 then '8'
  else '9'

/-- Fuel-indexed decimal digits of a natural number, most significant
first; fuel `n + 1` always suffices for `n`. -/
def natDigitsF : Nat → Nat → List Char
  | 0, _ => []
  | fuel + 1, n =>
    if n < 10 then [digitChar n]
    else natDigitsF fuel (n / 10) ++ [digitChar (n % 10)]

/-- Decimal rendering of a natural number. -/
def natRepr (n : Nat) : String :=
  String.mk (natDigitsF (n + 1) n)

/-- Decimal rendering, with two fractional digits, of a nonnegative
rational whose denominator divides 100: the shape `repr` gives the float
values the evaluation script actually produces (multiples of 0.25). -/
def reprQ (q : ℚ) : String :=
  let c := (q * 100).num.toNat
  natRepr (c / 100) ++ "." ++ natRepr (c / 10 % 10) ++ natRepr (c % 10)

/-- Sandbox provider that faithfully executes the rendered evaluation
script: creation succeeds, and running a script displays the value of its
final `evaluate_code(code_snippet, test_cases)` expression, whose repr
becomes `execution.text`. -/
def faithfulEnv (ee : ExecEnv) : Env where
  createFails := false
  run := fun p _ => RunRes.ok (some (reprQ (evaluate_code ee p.code p.test_cases)))

/-!
Claim-side definitions.  The next definitions restate, in the words of the
specification, the value the evaluation payload is claimed to compute and
the label resolution the curriculum gate is claimed to use; the refinement
theorems below compare them with the embeddings above.
-/

/-- The claimed fixed label-weight mapping: basic, medium, high and edge
weigh 0.25 each; every other label, including "minimal", weighs 0. -/
def specWeightMap (label : String) : ℚ :=
  if label ∈ (["basic", "medium", "high", "edge"] : List String) then mkRat 1 4 else 0

/-- The claimed weight of a test case inside the evaluation payload: a
missing label resolves to "minimal", and the mapping is consulted on the
whitespace-trimmed label. -/
def specCaseWeight (c : TestCase) : ℚ :=
  specWeightMap (pyStripS (c.label.getD "minimal"))

/-- The claimed pass criterion: the subprocess exits with code 0 and every
paired line of the shortest-length zip of the trimmed stdout lines against
the trimmed expected-output lines is equal, extra lines on either side
being ignored. -/
def specCasePasses (ee : ExecEnv) (code : String) (c : TestCase) : Bool :=
  let res := ee.exec code c.input
  res.1 == 0 &&
    (((splitNl (pyStrip res.2.data)).map pyStrip).zip
        ((splitNl c.output.data).map pyStrip)).all (fun p => p.1 == p.2)

/-- The claimed final value of the payload: the un-normalized sum, over the
test cases that pass, of their weights. -/
def specEvalValue (ee : ExecEnv) (code : String) (tcs : List TestCase) : ℚ :=
  ((tcs.filter (specCasePasses ee code)).map specCaseWeight).sum

/-- The reward the dispatcher assigns to one script whose execution call
returns a result object: the float-parse of the result text, 0.0 on parse
failure; meaningful whenever the call does not raise. -/
def scriptReward (env : Env) (language : String) (p : ScriptPayload) : ℚ :=
  match env.run p language with
  | RunRes.ok t => parseFloatD t
  | RunRes.exn => 0

/-- The claimed resolved label of a test case at the curriculum gate:
"minimal" when the label is absent or blank, the label itself otherwise. -/
def gateResolvedLabel (c : TestCase) : String :=
  match c.label with
  | none => "minimal"
  | some l => if l = "" then "minimal" else l

/-!
Helper lemmas.
-/

theorem foldl_and_eq_all {α : Type} (g : α → Bool) :
    ∀ (l : List α) (b : Bool), l.foldl (fun acc a => acc && g a) b = (b && l.all g) := by
  intro l
  induction l with
  | nil => intro b; simp
  | cons x xs ih => intro b; simp [List.foldl_cons, ih, Bool.and_assoc]

theorem zip_map_all {α β γ δ : Type} (f : α → γ) (g : β → δ) (r : γ → δ → Bool) :
    ∀ (as : List α) (bs : List β),
      ((as.map f).zip (bs.map g)).all (fun p => r p.1 p.2) =
        (as.zip bs).all (fun p => r (f p.1) (g p.2)) := by
  intro as
  induction as with
  | nil => intro bs; simp
  | cons a as ih => intro bs; cases bs <;> simp [ih]

theorem weights_eq_specWeightMap (l : String) : weights l = specWeightMap l := by
  by_cases h1 : l = "basic"
  · simp [weights, specWeightMap, h1]
  · by_cases h2 : l = "medium"
    · simp [weights, specWeightMap, h1, h2]
    · by_cases h3 : l = "high"
      · simp [weights, specWeightMap, h1, h2, h3]
      · by_cases h4 : l = "edge"
        · simp [weights, specWeightMap, h1, h2, h3, h4]
        · simp [weights, specWeightMap, h1, h2, h3, h4]

theorem evalStep_fst (ee : ExecEnv) (code : String) (acc : ℚ × ℚ) (c : TestCase) :
    (evalStep ee code acc c).1 =
      if specCasePasses ee code c then acc.1 + specCaseWeight c else acc.1 := by
  unfold evalStep specCasePasses specCaseWeight
  rcases hres : ee.exec code c.input with ⟨rc, out⟩
  by_cases hrc : rc = 0
  · subst hrc
    simp only [ne_eq, not_true_eq_false, if_false, beq_self_eq_true, Bool.true_and,
      foldl_and_eq_all, Bool.true_and, zip_map_all, weights_eq_specWeightMap]
    split <;> rfl
  · simp [hrc]

theorem foldl_evalStep_fst (ee : ExecEnv) (code : String) :
    ∀ (tcs : List TestCase) (acc : ℚ × ℚ),
      (tcs.foldl (evalStep ee code) acc).1 = acc.1 + specEvalValue ee code tcs := by
  intro tcs
  induction tcs with
  | nil => intro acc; simp [specEvalValue]
  | cons c cs ih =>
    intro acc
    rw [List.foldl_cons, ih, evalStep_fst]
    by_cases h : specCasePasses ee code c
    · simp [specEvalValue, h, List.filter_cons, add_assoc]
    · simp [specEvalValue, h, List.filter_cons]

theorem evaluate_code_eq_spec (ee : ExecEnv) (code : String) (tcs : List TestCase) :
    evaluate_code ee code tcs = specEvalValue ee code tcs := by
  unfold evaluate_code
  rw [foldl_evalStep_fst]
  simp

theorem mapE_ok_map {α β ε : Type} (f : α → Except ε β) (g : α → β) :
    ∀ l : List α, (∀ a ∈ l, f a = Except.ok (g a)) → mapE f l = Except.ok (l.map g) := by
  intro l
  induction l with
  | nil => intro _; rfl
  | cons a as ih =>
    intro h
    have ha := h a (List.mem_cons_self a as)
    have has := ih (fun x hx => h x (List.mem_cons_of_mem a hx))
    simp [mapE, ha, has]

theorem mapE_length {α β ε : Type} (f : α → Except ε β) :
    ∀ (l : List α) (bs : List β), mapE f l = Except.ok bs → bs.length = l.length := by
  intro l
  induction l with
  | nil =>
    intro bs h
    simp only [mapE, Except.ok.injEq] at h
    subst h
    rfl
  | cons a as ih =>
    intro bs h
    unfold mapE at h
    cases hf : f a with
    | error e => rw [hf] at h; exact absurd h (by simp)
    | ok b =>
      rw [hf] at h
      cases hs : mapE f as with
      | error e => rw [hs] at h; exact absurd h (by simp)
      | ok bs' =>
        rw [hs] at h
        rw [Except.ok.injEq] at h
        subst h
        simp [ih bs' hs]

theorem mapE_error_of_mem {α β ε : Type} (f : α → Except ε β) :
    ∀ (l : List α) (a : α) (e0 : ε), a ∈ l → f a = Except.error e0 →
      ∃ e, mapE f l = Except.error e := by
  intro l
  induction l with
  | nil => intro a e0 ha _; exact absurd ha (List.not_mem_nil a)
  | cons x xs ih =>
    intro a e0 ha hfa
    rcases List.mem_cons.1 ha with rfl | hmem
    · exact ⟨e0, by simp [mapE, hfa]⟩
    · cases hf : f x with
      | error e => exact ⟨e, by simp [mapE, hf]⟩
      | ok b =>
        obtain ⟨e, he⟩ := ih a e0 hmem hfa
        exact ⟨e, by simp [mapE, hf, he]⟩

theorem mapE_snippetOf_eq (comps : List Completion) (h : ∀ c ∈ comps, c ≠ []) :
    mapE snippetOf comps =
      Except.ok (comps.map (fun c => extract_code (lastContentD c) "python")) := by
  apply mapE_ok_map
  intro c hc
  cases hl : c.getLast? with
  | none =>
    have : c = [] := by
      cases c with
      | nil => rfl
      | cons x xs => simp at hl
    exact absurd this (h c hc)
  | some m => simp [snippetOf, lastContentD, hl]

theorem findBlocksF_nil (op : List Char) : ∀ fuel : Nat, findBlocksF op fuel [] = [] := by
  intro fuel
  cases fuel <;> rfl

theorem isPrefixOf_append_self (l x : List Char) : l.isPrefixOf (l ++ x) = true := by
  induction l with
  | nil => cases x <;> rfl
  | cons c cs ih => simp [List.isPrefixOf, ih]

/-!
Claim theorems.
-/

/-- C10: when both `completions` and `verification_info` are empty lists
and the sandbox capability is available, the facade raises an uncaught
IndexError, because the batch language is read from the head of
`verification_info` before any emptiness guard, instead of returning an
empty reward list. -/
theorem c10_empty_batch_index_error (env : Env) :
    code_based_on_unittests_reward env true [] [] =
      (Except.error PyErr.indexError, []) := rfl

/-- C6: the label schedule equals the claimed set on each epoch interval,
and it is monotonically non-decreasing by inclusion as the epoch grows. -/
theorem c6_label_schedule_intervals_monotone (e e' : Int) :
    (e < 1 → label_schedule e = ["basic"]) ∧
    (1 ≤ e → e < 2 → label_schedule e = ["basic", "medium"]) ∧
    (2 ≤ e → e < 3 → label_schedule e = ["basic", "medium", "high"]) ∧
    (3 ≤ e → label_schedule e = ["basic", "medium", "high", "edge"]) ∧
    (e ≤ e' → label_schedule e ⊆ label_schedule e') := by
  refine ⟨?_, ?_, ?_, ?_, ?_⟩
  · intro h
    simp [label_schedule, h]
  · intro h1 h2
    rw [label_schedule, if_neg (by omega), if_pos h2]
  · intro h1 h2
    rw [label_schedule, if_neg (by omega), if_neg (by omega), if_pos h2]
  · intro h
    rw [label_schedule, if_neg (by omega), if_neg (by omega), if_neg (by omega)]
  · intro h
    unfold label_schedule
    split_ifs <;> try (exfalso; omega)
    all_goals
      intro a ha
    all_goals
      simp only [List.mem_cons, List.not_mem_nil, or_false] at ha ⊢
    all_goals tauto

/-- Witness for c6_label_schedule_intervals_monotone at epochs 0 and 3. -/
theorem c6_label_schedule_intervals_monotone_witness :
    label_schedule 0 = ["basic"] ∧ label_schedule 0 ⊆ label_schedule 3 :=
  ⟨(c6_label_schedule_intervals_monotone 0 3).1 (by decide),
   (c6_label_schedule_intervals_monotone 0 3).2.2.2.2 (by decide)⟩

/-- C4: the generated evaluation payload computes the un-normalized sum,
over the test cases that pass, of the weight of the case's resolved label
(missing labels resolve to "minimal", unknown labels including "minimal"
weigh 0), where a case passes iff its subprocess exits with code 0 and
every paired line of the shortest-length zip of the trimmed stdout lines
against the trimmed expected-output lines is equal. -/
theorem c4_payload_weighted_sum (ee : ExecEnv) (code : String) (tcs : List TestCase) :
    evaluate_code ee code tcs = specEvalValue ee code tcs :=
  evaluate_code_eq_spec ee code tcs

theorem specCaseWeight_nonneg (c : TestCase) : 0 ≤ specCaseWeight c := by
  unfold specCaseWeight specWeightMap
  split_ifs
  · rw [Rat.mkRat_eq_div]
    norm_num
  · exact le_refl 0

theorem specCaseWeight_le_quarter (c : TestCase) : specCaseWeight c ≤ mkRat 1 4 := by
  unfold specCaseWeight specWeightMap
  split_ifs
  · exact le_refl _
  · rw [Rat.mkRat_eq_div]
    norm_num

/-- C7 amended: every payload value (hence every successfully parsed
reward under a faithful sandbox) is nonnegative and at most one quarter
per test case of its record; it is not confined to the interval [0, 1]. -/
theorem c7_reward_bounds (ee : ExecEnv) (code : String) (tcs : List TestCase) :
    0 ≤ evaluate_code ee code tcs ∧
      evaluate_code ee code tcs ≤ (tcs.length : ℚ) * mkRat 1 4 := by
  rw [evaluate_code_eq_spec]
  constructor
  · apply List.sum_nonneg
    intro a ha
    rw [List.mem_map] at ha
    obtain ⟨c, -, rfl⟩ := ha
    exact specCaseWeight_nonneg c
  · have h1 : ((tcs.filter (specCasePasses ee code)).map specCaseWeight).sum ≤
        ((tcs.filter (specCasePasses ee code)).map specCaseWeight).length • mkRat 1 4 := by
      apply List.sum_le_card_nsmul
      intro a ha
      rw [List.mem_map] at ha
      obtain ⟨c, -, rfl⟩ := ha
      exact specCaseWeight_le_quarter c
    have h2 : ((tcs.filter (specCasePasses ee code)).map specCaseWeight).length ≤
        tcs.length := by
      rw [List.length_map]
      exact List.length_filter_le _ _
    have h3 : (0 : ℚ) ≤ mkRat 1 4 := by
      rw [Rat.mkRat_eq_div]
      norm_num
    calc ((tcs.filter (specCasePasses ee code)).map specCaseWeight).sum
        ≤ ((tcs.filter (specCasePasses ee code)).map specCaseWeight).length • mkRat 1 4 := h1
      _ = (((tcs.filter (specCasePasses ee code)).map specCaseWeight).length : ℚ) *
            mkRat 1 4 := by rw [nsmul_eq_mul]
      _ ≤ (tcs.length : ℚ) * mkRat 1 4 := by
            apply mul_le_mul_of_nonneg_right _ h3
            exact_mod_cast h2

/-- C7 counterexample: with a faithful sandbox, a batch whose single
record carries five passing "basic" test cases is scored 1.25, outside
the claimed interval [0, 1]; the curriculum entry point at epoch 5 gives
the same list. -/
theorem c7_reward_in_unit_interval_cex :
    (code_based_on_unittests_reward (faithfulEnv ⟨fun _ _ => (0, "1")⟩) true
        [[⟨"assistant", "```python\nprint(1)\n```"⟩]]
        [⟨"python", List.replicate 5 ⟨"", "1", some "basic"⟩⟩]).1 =
      Except.ok [mkRat 5 4] ∧
    (curriculum_aware_reward_fn (faithfulEnv ⟨fun _ _ => (0, "1")⟩) true
        [[⟨"assistant", "```python\nprint(1)\n```"⟩]]
        [⟨"python", List.replicate 5 ⟨"", "1", some "basic"⟩⟩] 5).1 =
      Except.ok [mkRat 5 4] ∧
    ¬ (mkRat 5 4 ≤ 1) :=
  ⟨by with_unfolding_all rfl, by with_unfolding_all rfl, by decide⟩

theorem contains_eq_decide_mem (l : List String) (a : String) :
    l.contains a = decide (a ∈ l) := by
  induction l with
  | nil => rfl
  | cons x xs ih =>
    by_cases h : a = x
    · simp [List.contains_cons, h]
    · simp [List.contains_cons, ih, List.mem_cons, h]

theorem pyOr_eq_gateResolvedLabel (c : TestCase) :
    pyOr c.label "minimal" = gateResolvedLabel c := by
  cases h : c.label <;> simp [pyOr, gateResolvedLabel, h]

theorem minimal_not_mem_label_schedule (epoch : Int) :
    "minimal" ∉ label_schedule epoch := by
  unfold label_schedule
  split_ifs <;> decide

theorem gate_pred_eq (epoch : Int) (c : TestCase) :
    (label_schedule epoch).contains (pyOr c.label "minimal") =
      decide (gateResolvedLabel c ∈ label_schedule epoch) := by
  rw [pyOr_eq_gateResolvedLabel, contains_eq_decide_mem]

/-- C5: at every epoch, the curriculum entry point replaces each record's
test cases with exactly the original cases, in original order, whose
resolved label (defaulting to "minimal" when absent or blank) lies in the
epoch's allowed set; in particular, cases labeled "minimal" or unlabeled
are always removed. -/
theorem c5_curriculum_gate_filter (epoch : Int) (vis : List VerificationInfo) :
    curriculum_filter epoch vis =
      vis.map (fun info =>
        { info with
          test_cases := info.test_cases.filter
            (fun c => decide (gateResolvedLabel c ∈ label_schedule epoch)) }) ∧
    (curriculum_filter epoch vis).all
      (fun info => info.test_cases.all
        (fun c => !(c.label == none || c.label == some "minimal"))) = true ∧
    (∀ (env : Env) (is_e2b : Bool) (comps : List Completion),
      curriculum_aware_reward_fn env is_e2b comps vis epoch =
        code_based_on_unittests_reward env is_e2b comps (curriculum_filter epoch vis)) := by
  refine ⟨?_, ?_, fun _ _ _ => rfl⟩
  · unfold curriculum_filter
    apply List.map_congr_left
    intro info _
    congr 1
    apply List.filter_congr
    intro c _
    exact gate_pred_eq epoch c
  · rw [List.all_eq_true]
    intro info hinfo
    rw [List.all_eq_true]
    intro c hc
    simp only [curriculum_filter, List.mem_map] at hinfo
    obtain ⟨info0, -, rfl⟩ := hinfo
    simp only [List.mem_filter] at hc
    obtain ⟨-, hpred⟩ := hc
    rw [gate_pred_eq, decide_eq_true_eq] at hpred
    have hlab : gateResolvedLabel c ≠ "minimal" := by
      intro heq
      rw [heq] at hpred
      exact minimal_not_mem_label_schedule epoch hpred
    simp only [Bool.not_eq_true', Bool.or_eq_false_iff, beq_eq_false_iff_ne, ne_eq]
    constructor
    · intro heq
      apply hlab
      simp [gateResolvedLabel, heq]
    · intro heq
      apply hlab
      simp [gateResolvedLabel, heq]

theorem run_async_ok_length (env : Env) (scripts : List ScriptPayload) (lang : String)
    (rs : List ℚ) (tr : List Ev)
    (h : run_async env scripts lang = (Except.ok rs, tr)) : rs.length = scripts.length := by
  unfold run_async at h
  split at h
  · exact absurd h (by simp)
  · cases hg : gatherResults env scripts lang with
    | ok rewards =>
      rw [hg] at h
      simp only [Prod.mk.injEq, Except.ok.injEq] at h
      obtain ⟨rfl, -⟩ := h
      exact mapE_length _ scripts _ hg
    | error e =>
      rw [hg] at h
      exact absurd h (by simp)

theorem facadeScripts_length (comps : List Completion) (vis : List VerificationInfo)
    (h : comps.length = vis.length) :
    (facadeScripts comps vis).length = comps.length := by
  simp [facadeScripts, h]

/-- C8: a batch in which not all verification records declare the same
language makes the facade raise the language ValueError, which carries the
record list (the offending records among it), after causing no sandbox
operation at all. -/
theorem c8_mixed_language_validation (env : Env) (comps : List Completion)
    (vis : List VerificationInfo)
    (hne : ∀ c ∈ comps, c ≠ [])
    (hmix : ∃ v ∈ vis, ∃ w ∈ vis, v.language ≠ w.language) :
    code_based_on_unittests_reward env true comps vis =
      (Except.error (PyErr.valueError vis), []) := by
  obtain ⟨v, hv, w, hw, hvw⟩ := hmix
  cases vis with
  | nil => exact absurd hv (List.not_mem_nil v)
  | cons v0 vrest =>
    have hall : (v0 :: vrest).all (fun x => x.language == v0.language) = false := by
      rw [Bool.eq_false_iff]
      intro hallt
      rw [List.all_eq_true] at hallt
      have h1 := hallt v hv
      have h2 := hallt w hw
      rw [beq_iff_eq] at h1 h2
      exact hvw (h1.trans h2.symm)
    unfold code_based_on_unittests_reward
    rw [if_neg (by simp), mapE_snippetOf_eq comps hne]
    simp only [List.head?_cons, hall]
    simp

/-- Witness for c8_mixed_language_validation on a two-record batch mixing
python and cpp. -/
theorem c8_mixed_language_validation_witness :
    code_based_on_unittests_reward ⟨false, fun _ _ => RunRes.exn⟩ true
        [[⟨"user", "hi"⟩], [⟨"user", "ho"⟩]]
        [⟨"python", []⟩, ⟨"cpp", []⟩] =
      (Except.error (PyErr.valueError [⟨"python", []⟩, ⟨"cpp", []⟩]), []) :=
  c8_mixed_language_validation ⟨false, fun _ _ => RunRes.exn⟩
    [[⟨"user", "hi"⟩], [⟨"user", "ho"⟩]] [⟨"python", []⟩, ⟨"cpp", []⟩]
    (by decide)
    ⟨⟨"python", []⟩, by decide, ⟨"cpp", []⟩, by decide, by decide⟩

/-- C1: for a well-formed same-language batch (records aligned with the
completions, a nonempty record list, every completion nonempty) with the
sandbox capability available, the facade returns a reward list whose
length equals the number of completions, and whenever the dispatch stage
raises, that list is the all-zero vector of that length. -/
theorem c1_reward_length (env : Env) (comps : List Completion)
    (vis : List VerificationInfo) (v0 : VerificationInfo)
    (hlen : comps.length = vis.length)
    (h0 : vis.head? = some v0)
    (hne : ∀ c ∈ comps, c ≠ [])
    (hlang : vis.all (fun v => v.language == v0.language) = true) :
    ∃ rs, (code_based_on_unittests_reward env true comps vis).1 = Except.ok rs ∧
      rs.length = comps.length ∧
      ((run_async_from_sync env (facadeScripts comps vis) v0.language).1 =
          Except.error () → rs = List.replicate comps.length 0) := by
  unfold code_based_on_unittests_reward
  rw [if_neg (by simp), mapE_snippetOf_eq comps hne, h0]
  simp only [hlang]
  have hfs : ((comps.map (fun c => extract_code (lastContentD c) "python")).zip vis).map
      (fun p => ScriptPayload.mk p.1 p.2.test_cases) = facadeScripts comps vis := rfl
  rw [hfs]
  rcases hd : run_async_from_sync env (facadeScripts comps vis) v0.language with ⟨res, tr⟩
  cases res with
  | ok rewards =>
    refine ⟨rewards, by simp, ?_, ?_⟩
    · have := run_async_ok_length env (facadeScripts comps vis) v0.language rewards tr hd
      rw [this, facadeScripts_length comps vis hlen]
    · intro habs
      exact absurd habs (by simp)
  | error e =>
    refine ⟨List.replicate comps.length 0, by simp, by simp, fun _ => rfl⟩

/-- Witness for c1_reward_length: a one-completion batch whose sandbox
creation fails, so the dispatch raises and the facade degrades to the
zero vector of length one. -/
theorem c1_reward_length_witness :
    ∃ rs, (code_based_on_unittests_reward ⟨true, fun _ _ => RunRes.exn⟩ true
        [[⟨"user", "hi"⟩]] [⟨"python", []⟩]).1 = Except.ok rs ∧
      rs.length = 1 ∧
      ((run_async_from_sync ⟨true, fun _ _ => RunRes.exn⟩
          (facadeScripts [[⟨"user", "hi"⟩]] [⟨"python", []⟩]) "python").1 =
          Except.error () → rs = List.replicate 1 0) :=
  c1_reward_length ⟨true, fun _ _ => RunRes.exn⟩ [[⟨"user", "hi"⟩]] [⟨"python", []⟩]
    ⟨"python", []⟩ rfl rfl (by decide) (by decide)

theorem gatherResults_ok (env : Env) (scripts : List ScriptPayload) (lang : String)
    (h : ∀ p ∈ scripts, env.run p lang ≠ RunRes.exn) :
    gatherResults env scripts lang = Except.ok (scripts.map (scriptReward env lang)) := by
  apply mapE_ok_map
  intro p hp
  unfold run_script scriptReward
  cases hr : env.run p lang with
  | ok t => rfl
  | exn => exact absurd hr (h p hp)

theorem gatherResults_error (env : Env) (scripts : List ScriptPayload) (lang : String)
    (p : ScriptPayload) (hp : p ∈ scripts) (hr : env.run p lang = RunRes.exn) :
    gatherResults env scripts lang = Except.error () := by
  have hscript : run_script env p lang = Except.error () := by
    unfold run_script
    rw [hr]
  obtain ⟨e, he⟩ :=
    mapE_error_of_mem (fun q => run_script env q lang) scripts p () hp hscript
  cases e
  exact he

/-- C2 amended: per-script fault isolation holds only for result-parsing
faults: when no execution call raises, the dispatch returns, index-aligned,
each script's own parsed reward (0.0 exactly for the scripts whose text
fails to parse), each element depending only on its own script; but when
any script's execution call raises, the exception aborts the whole
dispatch, so no sibling receives its reward (the facade then degrades the
entire batch to zeros). -/
theorem c2_fault_isolation_amended (env : Env) (scripts : List ScriptPayload)
    (lang : String) (hc : env.createFails = false) :
    ((∀ p ∈ scripts, env.run p lang ≠ RunRes.exn) →
      (run_async env scripts lang).1 = Except.ok (scripts.map (scriptReward env lang))) ∧
    ((∃ p ∈ scripts, env.run p lang = RunRes.exn) →
      (run_async env scripts lang).1 = Except.error ()) := by
  constructor
  · intro h
    unfold run_async
    rw [hc]
    rw [gatherResults_ok env scripts lang h]
    simp
  · intro h
    obtain ⟨p, hp, hr⟩ := h
    unfold run_async
    rw [hc]
    rw [gatherResults_error env scripts lang p hp hr]
    simp

/-- Witness for c2_fault_isolation_amended: one healthy script whose text
parses to 0.5. -/
theorem c2_fault_isolation_amended_witness :
    (run_async ⟨false, fun _ _ => RunRes.ok (some "0.5")⟩ [⟨"a", []⟩] "python").1 =
      Except.ok ([(⟨"a", []⟩ : ScriptPayload)].map
        (scriptReward ⟨false, fun _ _ => RunRes.ok (some "0.5")⟩ "python")) :=
  (c2_fault_isolation_amended ⟨false, fun _ _ => RunRes.ok (some "0.5")⟩
    [⟨"a", []⟩] "python" rfl).1 (by decide)

/-- C2 counterexample: two payloads, the second's execution call raises,
the first's text would parse to 0.25; the dispatch itself raises instead
of isolating the fault, and the facade zeroes both rewards, so the
healthy sibling does not receive its parsed reward. -/
theorem c2_fault_isolation_cex :
    (run_async ⟨false, fun p _ => if p.code == "A" then RunRes.ok (some "0.25") else RunRes.exn⟩
        [⟨"A", []⟩, ⟨"B", []⟩] "python").1 = Except.error () ∧
    (code_based_on_unittests_reward
        ⟨false, fun p _ => if p.code == "A" then RunRes.ok (some "0.25") else RunRes.exn⟩ true
        [[⟨"assistant", "```python\nA```"⟩], [⟨"assistant", "```python\nB```"⟩]]
        [⟨"python", []⟩, ⟨"python", []⟩]).1 = Except.ok [0, 0] ∧
    parseFloatD (some "0.25") = mkRat 1 4 ∧ (mkRat 1 4 : ℚ) ≠ 0 :=
  ⟨by with_unfolding_all rfl, by with_unfolding_all rfl,
   by with_unfolding_all rfl, by decide⟩

/-- C3 amended: when sandbox creation succeeds the sandbox is killed
exactly once, after all run requests, provided no script request raises;
when some script request raises, the dispatcher propagates the exception
and never kills the sandbox. -/
theorem c3_kill_amended (env : Env) (scripts : List ScriptPayload) (lang : String)
    (hc : env.createFails = false) :
    ((∀ p ∈ scripts, env.run p lang ≠ RunRes.exn) →
      (run_async env scripts lang).2 =
        Ev.create :: (scripts.map Ev.run ++ [Ev.kill])) ∧
    ((∃ p ∈ scripts, env.run p lang = RunRes.exn) →
      Ev.kill ∉ (run_async env scripts lang).2) := by
  constructor
  · intro h
    unfold run_async
    rw [hc]
    rw [gatherResults_ok env scripts lang h]
    simp
  · intro h
    obtain ⟨p, hp, hr⟩ := h
    unfold run_async
    rw [hc]
    rw [gatherResults_error env scripts lang p hp hr]
    simp only [Bool.false_eq_true, if_false, List.mem_cons]
    rintro (h1 | h2)
    · exact absurd h1 (by simp)
    · rw [List.mem_map] at h2
      obtain ⟨q, -, hq⟩ := h2
      exact absurd hq (by simp)

/-- Witness for c3_kill_amended: a single healthy script, after which the
trace is create, run, kill. -/
theorem c3_kill_amended_witness :
    (run_async ⟨false, fun _ _ => RunRes.ok none⟩ [⟨"x", []⟩] "python").2 =
      Ev.create :: ([(⟨"x", []⟩ : ScriptPayload)].map Ev.run ++ [Ev.kill]) :=
  (c3_kill_amended ⟨false, fun _ _ => RunRes.ok none⟩ [⟨"x", []⟩] "python" rfl).1
    (by decide)

/-- C3 counterexample: creation succeeds, the single script request
raises, and the dispatch trace ends without any kill event, so the shared
sandbox is not destroyed on that path. -/
theorem c3_kill_cex :
    (⟨false, fun _ _ => RunRes.exn⟩ : Env).createFails = false ∧
    (run_async ⟨false, fun _ _ => RunRes.exn⟩ [⟨"x", []⟩] "python").2 =
      [Ev.create, Ev.run ⟨"x", []⟩] :=
  ⟨rfl, by decide⟩

theorem findBlocksF_eq_nil_of_not_occurs (op : List Char) :
    ∀ (fuel : Nat) (s : List Char), occursIn op s = false → findBlocksF op fuel s = [] := by
  intro fuel
  induction fuel with
  | zero => intro s _; rfl
  | succ fuel ih =>
    intro s h
    cases s with
    | nil => rfl
    | cons c rest =>
      have hpre : op.isPrefixOf (c :: rest) = false := by
        rw [Bool.eq_false_iff]
        intro hb
        unfold occursIn splitAtFirst at h
        rw [if_pos hb] at h
        exact absurd h (by simp)
      have hrest : occursIn op rest = false := by
        unfold occursIn at h ⊢
        cases hs : splitAtFirst op rest with
        | none => rfl
        | some pr =>
          unfold splitAtFirst at h
          rw [if_neg (by simp [hpre]), hs] at h
          cases pr
          exact absurd h (by simp)
      unfold findBlocksF
      rw [if_neg (by simp [hpre])]
      exact ih rest hrest

theorem findBlocksF_match_head (op y t rest' : List Char) (fuel : Nat) (c : Char)
    (cs : List Char) (hop : op = c :: cs)
    (hsplit : splitAtFirst fence y = some (t, rest')) :
    findBlocksF op (fuel + 1) (op ++ y) = t :: findBlocksF op fuel rest' := by
  subst hop
  show findBlocksF (c :: cs) (fuel + 1) (c :: (cs ++ y)) = t :: findBlocksF (c :: cs) fuel rest'
  have hdrop : (c :: (cs ++ y)).drop (c :: cs).length = y := List.drop_left (c :: cs) y
  have hpre : (c :: cs).isPrefixOf (c :: (cs ++ y)) = true :=
    isPrefixOf_append_self (c :: cs) y
  conv_lhs => unfold findBlocksF
  rw [if_pos hpre, hdrop, hsplit]

theorem extract_code_empty_of_not_occurs (s : String)
    (h : occursIn (openTagL "python".data) s.data = false) :
    extract_code s "python" = "" := by
  unfold extract_code extractCodeL findBlocks
  rw [findBlocksF_eq_nil_of_not_occurs _ _ _ h]
  rfl

theorem extractCodeL_single_block (lang t : List Char)
    (hsplit : splitAtFirst fence (t ++ fence) = some (t, [])) :
    extractCodeL lang (openTagL lang ++ (t ++ fence)) = t := by
  unfold extractCodeL findBlocks
  have hpos : 0 < (openTagL lang ++ (t ++ fence)).length := by
    simp [openTagL, fence]
  obtain ⟨k, hk⟩ : ∃ k, (openTagL lang ++ (t ++ fence)).length = k + 1 :=
    ⟨(openTagL lang ++ (t ++ fence)).length - 1, (Nat.succ_pred_eq_of_pos hpos).symm⟩
  rw [hk]
  cases hfc : openTagL lang with
  | nil => exact absurd hfc (by simp [openTagL, fence])
  | cons c cs =>
    rw [findBlocksF_match_head (c :: cs) (t ++ fence) t [] k c cs rfl hsplit]
    rw [findBlocksF_nil]
    rfl

/-- C9 amended: snippet extraction reads only the final turn's content and
uses the hard-coded language tag "python" rather than the batch's target
language; it returns the contents of the last python-tagged fenced block,
the empty string when no python opening fence occurs, and, being a total
string transform, never raises. -/
theorem c9_extraction_amended :
    (∀ (pre : List Message) (m : Message),
        snippetOf (pre ++ [m]) = Except.ok (extract_code m.content "python")) ∧
    (∀ s : String, occursIn (openTagL "python".data) s.data = false →
        extract_code s "python" = "") ∧
    (∀ lang t : List Char, splitAtFirst fence (t ++ fence) = some (t, []) →
        extractCodeL lang (openTagL lang ++ (t ++ fence)) = t) := by
  refine ⟨?_, ?_, ?_⟩
  · intro pre m
    unfold snippetOf
    rw [List.getLast?_concat]
  · intro s h
    exact extract_code_empty_of_not_occurs s h
  · intro lang t h
    exact extractCodeL_single_block lang t h

/-- Witness for c9_extraction_amended: a completion whose earlier turns
are ignored, a text with no python fence, and a single python block whose
contents are returned verbatim. -/
theorem c9_extraction_amended_witness :
    snippetOf ([⟨"user", "hello"⟩] ++ [⟨"assistant", "```python\nprint(1)\n```"⟩]) =
      Except.ok (extract_code "```python\nprint(1)\n```" "python") ∧
    extract_code "plain ```cpp\nX\n``` text" "python" = "" ∧
    extractCodeL "python".data
      (openTagL "python".data ++ ("print(1)\n".data ++ fence)) = "print(1)\n".data :=
  ⟨c9_extraction_amended.1 [⟨"user", "hello"⟩] ⟨"assistant", "```python\nprint(1)\n```"⟩,
   c9_extraction_amended.2.1 "plain ```cpp\nX\n``` text" (by decide),
   c9_extraction_amended.2.2 "python".data "print(1)\n".data (by decide)⟩

/-- C9 counterexample: for a batch whose target language is cpp, the
facade's snippet of a completion whose final turn carries exactly one
cpp-tagged block is the empty string, because extraction is hard-coded to
the tag python; it is not the cpp block's contents. -/
theorem c9_extraction_cex :
    snippetOf [⟨"assistant", "```cpp\nX\n```"⟩] = Except.ok "" ∧
    extract_code "```cpp\nX\n```" "cpp" = "X\n" ∧
    ("X\n" : String) ≠ "" :=
  ⟨rfl, rfl, by decide⟩

end CodeRewards
